import Mathlib

/-
Verification of the test262-harness metadata-extraction core
(src/lib.rs, src/error.rs) against its natural-language specification.

The Rust code is shallowly embedded:
- file text is modelled as `List Char`; the delimiters searched for are all
  ASCII, so `str::find` byte offsets coincide with positions in the model on
  the inputs the theorems are about;
- external library behaviour (the `regex` matcher, the YAML text parser) is
  abstracted as function parameters, so theorems quantify over every possible
  behaviour of those libraries; the serde-derived decoding of a parsed YAML
  value into the `Description` schema is embedded faithfully from the
  attributes in the source (`rename_all = "camelCase"`, `alias`, `default`);
- a Rust panic (out-of-order slice index) is a distinguished `RunResult`
  outcome.
-/

namespace T262

/-- Payload of `Error::Io` (`std::io::Error`), abstracted as its message. -/
abbrev IoMsg := String

/-- Payload of `Error::WalkDir` (`walkdir::Error`), abstracted as its message. -/
abbrev WalkMsg := String

/-- Payload of `Error::Yaml` (`serde_yaml::Error`), abstracted as its message. -/
abbrev YamlMsg := String

/-- Payload of `Error::Regex` (`regex::Error`), abstracted as its message. -/
abbrev RegexMsg := String

/-- A filesystem path (`std::path::PathBuf`), as its list of components. -/
structure RsPath where
  parts : List String
deriving DecidableEq

/-- The error enum of src/error.rs. -/
inductive Error
  | ioErr : IoMsg → Error
  | walkDir : WalkMsg → Error
  | yaml : YamlMsg → Error
  | regex : RegexMsg → Error
  | descriptionInvalid : RsPath → Error
deriving DecidableEq

/-- `Phase` from src/lib.rs (negative-test phase). -/
inductive Phase
  | Parse
  | Early
  | Resolution
  | Runtime
deriving DecidableEq

/-- `Flag` from src/lib.rs (execution flags). -/
inductive Flag
  | OnlyStrict
  | NoStrict
  | Module
  | Raw
  | Async
  | Generated
  | CanBlockIsFalse
  | CanBlockIsTrue
  | NonDeterministic
deriving DecidableEq

/-- `Negative` from src/lib.rs: how a failing test is expected to fail. -/
structure Negative where
  phase : Phase
  kind : Option String
deriving DecidableEq

/-- `Description` from src/lib.rs: the decoded metadata schema. -/
structure Description where
  id : Option String
  esid : Option String
  es5id : Option String
  es6id : Option String
  info : Option String
  description : Option String
  negative : Option Negative
  includes : List String
  flags : List Flag
  locale : List String
  features : List String
deriving DecidableEq

/-- A parsed YAML document value (the fragment of `serde_yaml::Value` the
schema can meet: null, strings, sequences and string-keyed mappings). -/
inductive Yaml
  | null
  | str : String → Yaml
  | seq : List Yaml → Yaml
  | map : List (String × Yaml) → Yaml

/-- serde: deserialize an `Option<String>` from a YAML value. -/
def decodeOptString : Yaml → Except YamlMsg (Option String)
  | .null => .ok none
  | .str s => .ok (some s)
  | _ => .error "invalid type: expected a string"

/-- serde: deserialize a `String` from a YAML value. -/
def decodeString : Yaml → Except YamlMsg String
  | .str s => .ok s
  | _ => .error "invalid type: expected a string"

/-- serde: deserialize a `Vec<String>` from a YAML value. -/
def decodeStringSeq : Yaml → Except YamlMsg (List String)
  | .seq xs => xs.mapM decodeString
  | _ => .error "invalid type: expected a sequence"

/-- `Phase` wire spellings: `#[serde(rename_all = "camelCase")]` renames each
variant to its camelCase form, matched exactly (case-sensitively) by the
generated deserializer. -/
def phaseOfStr (s : String) : Except YamlMsg Phase :=
  if s = "parse" then .ok .Parse
  else if s = "early" then .ok .Early
  else if s = "resolution" then .ok .Resolution
  else if s = "runtime" then .ok .Runtime
  else .error "unknown variant"

/-- serde: deserialize a `Phase` from a YAML value. -/
def decodePhase : Yaml → Except YamlMsg Phase
  | .str s => phaseOfStr s
  | _ => .error "invalid type: expected a string"

/-- `Flag` wire spellings: camelCase renaming plus the `#[serde(alias)]`
spellings `CanBlockIsFalse`, `CanBlockIsTrue` and `non-deterministic`. -/
def flagOfStr (s : String) : Except YamlMsg Flag :=
  if s = "onlyStrict" then .ok .OnlyStrict
  else if s = "noStrict" then .ok .NoStrict
  else if s = "module" then .ok .Module
  else if s = "raw" then .ok .Raw
  else if s = "async" then .ok .Async
  else if s = "generated" then .ok .Generated
  else if s = "canBlockIsFalse" ∨ s = "CanBlockIsFalse" then .ok .CanBlockIsFalse
  else if s = "canBlockIsTrue" ∨ s = "CanBlockIsTrue" then .ok .CanBlockIsTrue
  else if s = "nonDeterministic" ∨ s = "non-deterministic" then .ok .NonDeterministic
  else .error "unknown variant"

/-- serde: deserialize a `Vec<Flag>` from a YAML value. -/
def decodeFlagSeq : Yaml → Except YamlMsg (List Flag)
  | .seq xs => xs.mapM (fun v => (decodeString v).bind flagOfStr)
  | _ => .error "invalid type: expected a sequence"

/-- Field access on a YAML mapping: the serde-derived struct visitor reads
an `Option<String>` field; a missing key defaults to `None`. -/
def optStrField (kvs : List (String × Yaml)) (k : String) :
    Except YamlMsg (Option String) :=
  match kvs.lookup k with
  | none => .ok none
  | some v => decodeOptString v

/-- Field access for the `#[serde(default)] Vec<String>` fields: a missing
key defaults to the empty vector. -/
def seqStrField (kvs : List (String × Yaml)) (k : String) :
    Except YamlMsg (List String) :=
  match kvs.lookup k with
  | none => .ok []
  | some v => decodeStringSeq v

/-- Mapping entries feeding the `kind` field of `Negative`: the canonical
key `kind` and its `#[serde(alias = "type")]` spelling. -/
def kindEntries (kvs : List (String × Yaml)) : List (String × Yaml) :=
  kvs.filter (fun kv => kv.1 == "kind" || kv.1 == "type")

/-- serde: deserialize a `Negative` from a YAML value. `phase` is required
(missing-field error when absent); `kind` also accepts the legacy key
`type`, and two hits make a duplicate-field error. -/
def negativeFromYaml : Yaml → Except YamlMsg Negative
  | .map kvs =>
    (Except.bind
      (match kvs.lookup "phase" with
       | none => Except.error "missing field phase"
       | some v => decodePhase v)) fun phase =>
    (Except.bind
      (match kindEntries kvs with
       | [] => Except.ok none
       | [kv] => decodeOptString kv.2
       | _ => Except.error "duplicate field kind")) fun kind =>
    .ok ⟨phase, kind⟩
  | _ => .error "invalid type: expected a map"

/-- The `negative` field of `Description`: an `Option<Negative>` with no
default attribute — missing key or explicit null decode to `None`. -/
def negField (kvs : List (String × Yaml)) : Except YamlMsg (Option Negative) :=
  match kvs.lookup "negative" with
  | none => .ok none
  | some .null => .ok none
  | some v => Except.map some (negativeFromYaml v)

/-- The `#[serde(default)] flags : Vec<Flag>` field of `Description`. -/
def flagsField (kvs : List (String × Yaml)) : Except YamlMsg (List Flag) :=
  match kvs.lookup "flags" with
  | none => .ok []
  | some v => decodeFlagSeq v

/-- serde: deserialize a `Description` from a YAML value — the derived
deserializer for the struct in src/lib.rs. Unknown keys are ignored (no
`deny_unknown_fields`); `Option` fields default to `None`, the four
`#[serde(default)]` vectors to `[]`. -/
def descriptionFromYaml : Yaml → Except YamlMsg Description
  | .map kvs =>
    (optStrField kvs "id").bind fun idv =>
    (optStrField kvs "esid").bind fun esidv =>
    (optStrField kvs "es5id").bind fun es5idv =>
    (optStrField kvs "es6id").bind fun es6idv =>
    (optStrField kvs "info").bind fun infov =>
    (optStrField kvs "description").bind fun descv =>
    (negField kvs).bind fun negv =>
    (seqStrField kvs "includes").bind fun inclv =>
    (flagsField kvs).bind fun flagv =>
    (seqStrField kvs "locale").bind fun locv =>
    (seqStrField kvs "features").bind fun featv =>
    .ok ⟨idv, esidv, es5idv, es6idv, infov, descv, negv, inclv, flagv, locv, featv⟩
  | _ => .error "invalid type: expected a map"

/-- Index of the first occurrence of `pat` in `text` (`str::find`):
the least position where `pat` is a prefix of the remaining text. -/
def firstIdx (pat : List Char) : List Char → Option Nat
  | [] => if pat.isEmpty then some 0 else none
  | c :: rest =>
    if pat.isPrefixOf (c :: rest) then some 0
    else (firstIdx pat rest).map (· + 1)

/-- The opening metadata delimiter of `Harness::find_yaml`. -/
def openDelim : List Char := "/*---".data

/-- The closing metadata delimiter of `Harness::find_yaml`. -/
def closeDelim : List Char := "---*/".data

/-- `Harness::find_yaml` from src/lib.rs: the byte range strictly between
the first occurrence of the opening delimiter and the first occurrence of
the closing delimiter; `DescriptionInvalid` when either is missing. -/
def find_yaml (content : List Char) (path : RsPath) : Except Error (Nat × Nat) :=
  match firstIdx openDelim content with
  | none => .error (.descriptionInvalid path)
  | some start =>
    match firstIdx closeDelim content with
    | none => .error (.descriptionInvalid path)
    | some stop => .ok (start + 5, stop)

/-- Outcome of running a Rust function that can also panic. -/
inductive RunResult (α : Type)
  | ok : α → RunResult α
  | err : Error → RunResult α
  | panicked : RunResult α
deriving DecidableEq

/-- `Test` from src/lib.rs: one extracted corpus entry. -/
structure Test where
  source : List Char
  path : RsPath
  desc : Description
  license : Option (Nat × Nat)

/-- Behaviour of the compiled license regex on a text: the position range of
its first match, if any (the `regex` crate is external; theorems quantify
over every matcher). -/
abbrev LicenseMatcher := List Char → Option (Nat × Nat)

/-- Behaviour of the external YAML text parser (`serde_yaml`'s syntax
layer): from the normalized metadata text to a document value or a syntax
error; theorems quantify over every parser. -/
abbrev ParseFn := List Char → Except YamlMsg Yaml

/-- `Harness::find_license` from src/lib.rs. The regex pattern in the source
is a fixed valid pattern (the crate's own tests compile and run it), so
`Regex::new` on it returns `Ok` and the function reduces to running the
compiled matcher, never reaching the `Error::Regex` propagation of its `?`. -/
def find_license (lm : LicenseMatcher) (content : List Char) :
    Except Error (Option (Nat × Nat)) :=
  .ok (lm content)

/-- `\r`-to-`\n` normalization (`str::replace` with one-char patterns). -/
def normalizeCR (cs : List Char) : List Char :=
  cs.map fun c => if c = '\r' then '\n' else c

/-- `Harness::create_test` from src/lib.rs: locate the metadata range, slice
it out of the text (a Rust slice `contents[a..b]` panics when `a > b` or `b`
is out of bounds — modelled by the guard), normalize line endings, find the
license span, decode the metadata. -/
def create_test (py : ParseFn) (lm : LicenseMatcher)
    (contents : List Char) (path : RsPath) : RunResult Test :=
  match find_yaml contents path with
  | .error e => .err e
  | .ok (ys, ye) =>
    if ys ≤ ye ∧ ye ≤ contents.length then
      match find_license lm contents with
      | .error e => .err e
      | .ok license =>
        match (py (normalizeCR ((contents.drop ys).take (ye - ys)))).bind
            descriptionFromYaml with
        | .error e => .err (.yaml e)
        | .ok desc => .ok ⟨contents, path, desc, license⟩
    else .panicked

/-- A directory entry yielded by the `walkdir` traversal. -/
structure DirEntry where
  path : RsPath
  isDir : Bool
deriving DecidableEq

/-- `Path::file_name`: the final component of the path. -/
def fileName (p : RsPath) : Option String :=
  p.parts.getLast?

/-- Position of the last `.` in a file name. -/
def lastDotIdx (cs : List Char) : Option Nat :=
  ((List.range cs.length).filter fun i => cs.get? i == some '.').getLast?

/-- `Path::extension` (Rust semantics): the portion of the file name after
its last dot; no extension when there is no dot or when the only dot is the
leading character of a hidden file. -/
def rustExtension (name : String) : Option String :=
  match lastDotIdx name.data with
  | none => none
  | some 0 => none
  | some i => some (String.mk (name.data.drop (i + 1)))

/-- Rust `str::ends_with`, as a suffix check on the character lists. -/
def endsWithStr (name suffix : String) : Bool :=
  suffix.data.isSuffixOf name.data

/-- The body of the `filter_map` closure in `Harness::new`, on an `Ok`
entry: skip directories, skip entries without an extension, keep `.js`
files whose name does not end in `_FIXTURE.js`. -/
def keep (e : DirEntry) : Option RsPath :=
  if e.isDir then none
  else
    match fileName e.path with
    | none => none
    | some name =>
      match rustExtension name with
      | none => none
      | some ext =>
        if ext = "js" then
          if endsWithStr name "_FIXTURE.js" then none else some e.path
        else none

/-- `Harness::new` from src/lib.rs, applied to the walker's raw result
stream: `filter_map` of `keep` over `Ok` entries, with errors passed
through, then `collect::<Result<Vec<_>, _>>()`, which stops at the first
error and converts it via `From` into `Error::WalkDir`. -/
def harnessNew : List (Except WalkMsg DirEntry) → Except Error (List RsPath)
  | [] => .ok []
  | .error e :: _ => .error (.walkDir e)
  | .ok d :: rest =>
    match keep d with
    | none => harnessNew rest
    | some p => Except.map (fun ps => p :: ps) (harnessNew rest)

/-- The `Harness` iterator state: the materialized path list and a cursor. -/
structure Harness where
  test_paths : List RsPath
  idx : Nat
deriving DecidableEq

/-- Behaviour of `std::fs::read_to_string`: file contents or an I/O error. -/
abbrev FileSystem := RsPath → Except IoMsg (List Char)

/-- `Harness::create_test_from_file`: read the file, then `create_test`. -/
def create_test_from_file (py : ParseFn) (lm : LicenseMatcher)
    (fs : FileSystem) (p : RsPath) : RunResult Test :=
  match fs p with
  | .error e => .err (.ioErr e)
  | .ok contents => create_test py lm contents p

/-- `<Harness as Iterator>::next` from src/lib.rs: `None` once the cursor
has passed the end; otherwise the extraction result for the path at the
cursor, with the cursor advanced. -/
def next (py : ParseFn) (lm : LicenseMatcher) (fs : FileSystem)
    (st : Harness) : Option (RunResult Test) × Harness :=
  if st.test_paths.length ≤ st.idx then (none, st)
  else
    match st.test_paths.get? st.idx with
    | none => (none, st)
    | some p =>
      (some (create_test_from_file py lm fs p), ⟨st.test_paths, st.idx + 1⟩)

/-- A pattern occurs somewhere in a text (at some position). -/
def Occurs (pat text : List Char) : Prop :=
  ∃ i, pat <+: text.drop i

/-- Sample walker output used to witness the walker theorems. -/
def esSample : List DirEntry :=
  [⟨⟨["t", "a.js"]⟩, false⟩, ⟨⟨["t", "b_FIXTURE.js"]⟩, false⟩,
   ⟨⟨["t", "sub"]⟩, true⟩, ⟨⟨["t", "c.txt"]⟩, false⟩, ⟨⟨["t", "noext"]⟩, false⟩]

theorem isPrefixOf_iff (p l : List Char) : p.isPrefixOf l = true ↔ p <+: l :=
  List.isPrefixOf_iff_prefix

theorem firstIdx_eq_some_iff (pat text : List Char) (i : Nat) :
    firstIdx pat text = some i ↔
      (pat <+: text.drop i ∧ ∀ j, j < i → ¬ pat <+: text.drop j) := by
  induction text generalizing i with
  | nil =>
    constructor
    · intro h
      have hp : pat.isEmpty = true := by
        by_contra hne
        simp only [firstIdx] at h
        rw [if_neg (by simpa using hne)] at h
        exact Option.noConfusion h
      have hpe : pat = [] := by simpa [List.isEmpty_iff] using hp
      have hi : i = 0 := by
        simp only [firstIdx, hp, if_true] at h
        simpa using h.symm
      subst hpe hi
      exact ⟨List.nil_prefix, fun j hj => absurd hj (Nat.not_lt_zero j)⟩
    · rintro ⟨h1, h2⟩
      have hpe : pat = [] := by
        have := h1
        rw [List.drop_nil] at this
        exact List.prefix_nil.mp this
      subst hpe
      have hi : i = 0 := by
        by_contra hne
        exact h2 0 (by omega) List.nil_prefix
      subst hi
      simp [firstIdx]
  | cons c rest ih =>
    by_cases hp : pat.isPrefixOf (c :: rest) = true
    · have hp2 : pat <+: c :: rest := (isPrefixOf_iff pat (c :: rest)).mp hp
      simp only [firstIdx, hp, if_true]
      constructor
      · intro h
        have hi : i = 0 := by simpa using h.symm
        subst hi
        exact ⟨by simpa using hp2, fun j hj => absurd hj (Nat.not_lt_zero j)⟩
      · rintro ⟨h1, h2⟩
        cases i with
        | zero => rfl
        | succ k => exact absurd hp2 (by simpa using h2 0 (Nat.succ_pos k))
    · have hp2 : ¬ pat <+: c :: rest := fun hc =>
        hp ((isPrefixOf_iff pat (c :: rest)).mpr hc)
      simp only [firstIdx, hp, if_false]
      constructor
      · intro h
        obtain ⟨k, hk, rfl⟩ : ∃ k, firstIdx pat rest = some k ∧ i = k + 1 := by
          cases hf : firstIdx pat rest with
          | none => rw [hf] at h; exact Option.noConfusion h
          | some k =>
            rw [hf] at h
            exact ⟨k, rfl, by simpa using h.symm⟩
        obtain ⟨hk1, hk2⟩ := (ih k).mp hk
        refine ⟨by simpa [List.drop_succ_cons] using hk1, ?_⟩
        intro j hj
        cases j with
        | zero => simpa using hp2
        | succ m =>
          have := hk2 m (by omega)
          simpa [List.drop_succ_cons] using this
      · rintro ⟨h1, h2⟩
        cases i with
        | zero => exact absurd (by simpa using h1) hp2
        | succ k =>
          have hk : firstIdx pat rest = some k := by
            refine (ih k).mpr ⟨by simpa [List.drop_succ_cons] using h1, ?_⟩
            intro j hj
            have := h2 (j + 1) (by omega)
            simpa [List.drop_succ_cons] using this
          rw [hk]
          rfl

theorem occurs_iff_isSome (pat text : List Char) :
    Occurs pat text ↔ (firstIdx pat text).isSome = true := by
  constructor
  · rintro ⟨i, hi⟩
    have hex : ∃ j, pat <+: text.drop j := ⟨i, hi⟩
    have h1 : pat <+: text.drop (Nat.find hex) := Nat.find_spec hex
    have h2 : ∀ j, j < Nat.find hex → ¬ pat <+: text.drop j :=
      fun j hj => Nat.find_min hex hj
    have := (firstIdx_eq_some_iff pat text (Nat.find hex)).mpr ⟨h1, h2⟩
    rw [this]
    rfl
  · intro h
    cases hf : firstIdx pat text with
    | none => rw [hf] at h; exact Bool.noConfusion h
    | some j => exact ⟨j, ((firstIdx_eq_some_iff pat text j).mp hf).1⟩

theorem except_bind_ok (a : α) (f : α → Except ε β) :
    (Except.ok a).bind f = f a := rfl

theorem except_bind_fst_err (e : ε) (f : α → Except ε β) :
    (Except.error e).bind f = Except.error e := rfl

theorem except_bind_ok_inv (x : Except ε α) (f : α → Except ε β) (b : β)
    (h : x.bind f = .ok b) : ∃ a, x = .ok a ∧ f a = .ok b := by
  cases x with
  | error e => rw [except_bind_fst_err] at h; exact Except.noConfusion h
  | ok a => exact ⟨a, rfl, h⟩

theorem find_yaml_error_cases (content : List Char) (path : RsPath) (e : Error)
    (h : find_yaml content path = .error e) : e = .descriptionInvalid path := by
  unfold find_yaml at h
  cases h1 : firstIdx openDelim content with
  | none =>
    rw [h1] at h
    exact (Except.error.injEq _ _ ▸ h).symm ▸ rfl
  | some s =>
    rw [h1] at h
    cases h2 : firstIdx closeDelim content with
    | none =>
      rw [h2] at h
      exact (Except.error.injEq _ _ ▸ h).symm ▸ rfl
    | some t =>
      rw [h2] at h
      exact Except.noConfusion h

/-- Claim C3: the claim states that `create_test` is total (never panics),
in particular on inputs where the first `---*/` begins before the end of
the first `/*---`. The code violates this: on the text `/*---*/` the
boundary locator returns the byte range (5, 2) — opening delimiter at 0, so
start 5; first `---*/` already at index 2 — and the Rust slice
`contents[5..2]` panics. -/
theorem c3_create_test_panics (py : ParseFn) (lm : LicenseMatcher) (path : RsPath) :
    create_test py lm "/*---*/".data path = .panicked ∧
    find_yaml "/*---*/".data path = .ok (5, 2) :=
  ⟨rfl, rfl⟩

/-- Claim C5: for every text in which the opening delimiter is absent, or
the closing delimiter is absent, or both, boundary location fails with the
metadata-missing error variant carrying the file's path. -/
theorem c5_missing_delimiter (content : List Char) (path : RsPath)
    (habs : ¬ Occurs openDelim content ∨ ¬ Occurs closeDelim content) :
    find_yaml content path = .error (.descriptionInvalid path) := by
  have hnone : ∀ pat : List Char,
      ¬ Occurs pat content → firstIdx pat content = none := by
    intro pat h
    cases hf : firstIdx pat content with
    | none => rfl
    | some s =>
      exact absurd ⟨s, ((firstIdx_eq_some_iff pat content s).mp hf).1⟩ h
  rcases habs with h | h
  · unfold find_yaml
    rw [hnone _ h]
  · unfold find_yaml
    cases hf : firstIdx openDelim content with
    | none => rfl
    | some s => rw [hnone _ h]

/-- Witness for C5 at concrete inputs: both delimiters absent, only the
opening delimiter present, only the closing delimiter present. -/
theorem c5_missing_delimiter_witness :
    find_yaml "var x = 1;".data ⟨["t.js"]⟩ =
      .error (.descriptionInvalid ⟨["t.js"]⟩) ∧
    find_yaml "/*--- only open".data ⟨["t.js"]⟩ =
      .error (.descriptionInvalid ⟨["t.js"]⟩) ∧
    find_yaml "only close ---*/".data ⟨["t.js"]⟩ =
      .error (.descriptionInvalid ⟨["t.js"]⟩) := by
  refine ⟨c5_missing_delimiter _ _ (Or.inl ?_), c5_missing_delimiter _ _ (Or.inr ?_),
    c5_missing_delimiter _ _ (Or.inl ?_)⟩ <;> rw [occurs_iff_isSome] <;> decide

/-- Claim C4 (counterexample): the text
`/*---p---*//*---id: a---*/` contains `/*---X---*/` for the decodable
metadata `X = id: a` (occupying the range (16, 21)), yet boundary location
returns (5, 6) — the range between the first occurrences of the two
delimiters — not the span of `X`. -/
theorem c4_span_cex :
    "/*---p---*//*---id: a---*/".data =
      "/*---p---*/".data ++ openDelim ++ "id: a".data ++ closeDelim ∧
    ("/*---p---*//*---id: a---*/".data.drop 16).take 5 = "id: a".data ∧
    descriptionFromYaml (Yaml.map [("id", Yaml.str "a")]) =
      .ok ⟨some "a", none, none, none, none, none, none, [], [], [], []⟩ ∧
    find_yaml "/*---p---*//*---id: a---*/".data ⟨["t.js"]⟩ = .ok (5, 6) ∧
    ((5, 6) : Nat × Nat) ≠ (16, 21) := by
  refine ⟨rfl, rfl, rfl, rfl, ?_⟩
  decide

/-- Claim C4 (amended): for a text `pre ++ /*--- ++ X ++ ---*/ ++ post` in
which no occurrence of the opening delimiter starts before `pre.length` and
no occurrence of the closing delimiter starts before the one closing `X`,
boundary location returns exactly the half-open range of `X`, whose slice
of the text is `X` itself. -/
theorem c4_first_delim_span (pre x post : List Char) (path : RsPath)
    (hopen : ∀ j, j < pre.length →
      ¬ openDelim <+: (pre ++ openDelim ++ x ++ closeDelim ++ post).drop j)
    (hclose : ∀ j, j < pre.length + 5 + x.length →
      ¬ closeDelim <+: (pre ++ openDelim ++ x ++ closeDelim ++ post).drop j) :
    find_yaml (pre ++ openDelim ++ x ++ closeDelim ++ post) path =
      .ok (pre.length + 5, pre.length + 5 + x.length) ∧
    ((pre ++ openDelim ++ x ++ closeDelim ++ post).drop (pre.length + 5)).take
      (pre.length + 5 + x.length - (pre.length + 5)) = x := by
  have h5 : openDelim.length = 5 := rfl
  have htext : pre ++ openDelim ++ x ++ closeDelim ++ post =
      pre ++ (openDelim ++ (x ++ (closeDelim ++ post))) := by
    simp [List.append_assoc]
  have hdropPre : (pre ++ openDelim ++ x ++ closeDelim ++ post).drop pre.length =
      openDelim ++ (x ++ (closeDelim ++ post)) := by
    rw [htext]
    exact List.drop_left _ _
  have hfo : firstIdx openDelim (pre ++ openDelim ++ x ++ closeDelim ++ post) =
      some pre.length := by
    refine (firstIdx_eq_some_iff _ _ _).mpr ⟨?_, hopen⟩
    rw [hdropPre]
    exact List.prefix_append _ _
  have hlen1 : (pre ++ openDelim ++ x).length = pre.length + 5 + x.length := by
    rw [List.length_append, List.length_append, h5]
  have htext2 : pre ++ openDelim ++ x ++ closeDelim ++ post =
      (pre ++ openDelim ++ x) ++ (closeDelim ++ post) := by
    simp [List.append_assoc]
  have hdropX : (pre ++ openDelim ++ x ++ closeDelim ++ post).drop
      (pre.length + 5 + x.length) = closeDelim ++ post := by
    rw [htext2, ← hlen1]
    exact List.drop_left _ _
  have hfc : firstIdx closeDelim (pre ++ openDelim ++ x ++ closeDelim ++ post) =
      some (pre.length + 5 + x.length) := by
    refine (firstIdx_eq_some_iff _ _ _).mpr ⟨?_, hclose⟩
    rw [hdropX]
    exact List.prefix_append _ _
  constructor
  · unfold find_yaml
    rw [hfo, hfc]
  · have hlen2 : (pre ++ openDelim).length = pre.length + 5 := by
      rw [List.length_append, h5]
    have htext3 : pre ++ openDelim ++ x ++ closeDelim ++ post =
        (pre ++ openDelim) ++ (x ++ (closeDelim ++ post)) := by
      simp [List.append_assoc]
    have hdropSlice : (pre ++ openDelim ++ x ++ closeDelim ++ post).drop
        (pre.length + 5) = x ++ (closeDelim ++ post) := by
      rw [htext3, ← hlen2]
      exact List.drop_left _ _
    rw [hdropSlice]
    have hsub : pre.length + 5 + x.length - (pre.length + 5) = x.length := by
      omega
    rw [hsub]
    exact List.take_left _ _

/-- Witness for C4 (amended) at a concrete input: the text
`/*---id: a---*/` with empty `pre` and `post`. -/
theorem c4_first_delim_span_witness :
    find_yaml (([] : List Char) ++ openDelim ++ "id: a".data ++ closeDelim ++ []) ⟨["t.js"]⟩ =
      .ok (List.length ([] : List Char) + 5,
        List.length ([] : List Char) + 5 + "id: a".data.length) ∧
    ((([] : List Char) ++ openDelim ++ "id: a".data ++ closeDelim ++ []).drop
      (List.length ([] : List Char) + 5)).take
      (List.length ([] : List Char) + 5 + "id: a".data.length -
        (List.length ([] : List Char) + 5)) = "id: a".data := by
  have hc : ∀ j, j < List.length ([] : List Char) + 5 + "id: a".data.length →
      ¬ closeDelim <+:
        (([] : List Char) ++ openDelim ++ "id: a".data ++ closeDelim ++ []).drop j := by
    decide
  exact c4_first_delim_span [] "id: a".data [] ⟨["t.js"]⟩
    (fun j hj => absurd hj (by simp)) hc

theorem keep_eq_some_iff (e : DirEntry) (p : RsPath) :
    keep e = some p ↔
      (e.isDir = false ∧ ∃ name, fileName e.path = some name ∧
        rustExtension name = some "js" ∧ endsWithStr name "_FIXTURE.js" = false ∧
        e.path = p) := by
  unfold keep
  split
  next hd => simp [hd]
  next hd =>
    rw [Bool.not_eq_true] at hd
    split
    next hn => simp [hd, hn]
    next name hn =>
      split
      next hx => simp [hd, hn, hx]
      next ext hx =>
        by_cases hjs : ext = "js"
        · subst hjs
          by_cases hfx : endsWithStr name "_FIXTURE.js" = true
          · simp [hd, hn, hx, hfx]
          · rw [Bool.not_eq_true] at hfx
            simp [hd, hn, hx, hfx]
        · simp [hd, hn, hx, hjs]

theorem harnessNew_all_ok (es : List DirEntry) :
    harnessNew (es.map Except.ok) = .ok (es.filterMap keep) := by
  induction es with
  | nil => rfl
  | cons e rest ih =>
    cases hk : keep e with
    | none => simp only [List.map_cons, harnessNew, hk, List.filterMap_cons, ih]
    | some p =>
      simp only [List.map_cons, harnessNew, hk, List.filterMap_cons, ih]
      rfl

theorem filterMap_keep_as_map (es : List DirEntry) :
    es.filterMap keep = (es.filter fun e => (keep e).isSome).map DirEntry.path := by
  induction es with
  | nil => rfl
  | cons e rest ih =>
    cases hk : keep e with
    | none => simp [List.filterMap_cons, List.filter_cons, hk, ih]
    | some p =>
      obtain ⟨h1, name, h2, h3, h4, h5⟩ := (keep_eq_some_iff e p).mp hk
      simp [List.filterMap_cons, List.filter_cons, hk, ih, h5]

/-- Claim C6: on an error-free traversal whose entries have pairwise
distinct paths, the materialized path list of `Harness::new` holds exactly
one occurrence of every non-directory entry whose Rust extension is `js`
and whose file name does not end in `_FIXTURE.js`, and nothing else. -/
theorem c6_walker_exact (es : List DirEntry)
    (hnd : (es.map DirEntry.path).Nodup) :
    ∃ ps, harnessNew (es.map Except.ok) = .ok ps ∧ ps.Nodup ∧
      ∀ p, p ∈ ps ↔ ∃ e, e ∈ es ∧ e.isDir = false ∧
        (∃ name, fileName e.path = some name ∧ rustExtension name = some "js" ∧
          endsWithStr name "_FIXTURE.js" = false) ∧ e.path = p := by
  refine ⟨es.filterMap keep, harnessNew_all_ok es, ?_, ?_⟩
  · rw [filterMap_keep_as_map]
    exact hnd.sublist (List.Sublist.map DirEntry.path (List.filter_sublist es))
  · intro p
    rw [List.mem_filterMap]
    constructor
    · rintro ⟨e, he, hk⟩
      obtain ⟨h1, name, h2, h3, h4, h5⟩ := (keep_eq_some_iff e p).mp hk
      exact ⟨e, he, h1, ⟨name, h2, h3, h4⟩, h5⟩
    · rintro ⟨e, he, h1, ⟨name, h2, h3, h4⟩, h5⟩
      exact ⟨e, he, (keep_eq_some_iff e p).mpr ⟨h1, name, h2, h3, h4, h5⟩⟩

/-- Witness for C6 on a concrete traversal: a kept `.js` file, a fixture
file, a directory, a `.txt` file and an extensionless file. -/
theorem c6_walker_exact_witness :
    ∃ ps, harnessNew (esSample.map Except.ok) = .ok ps ∧ ps.Nodup ∧
      ∀ p, p ∈ ps ↔ ∃ e, e ∈ esSample ∧ e.isDir = false ∧
        (∃ name, fileName e.path = some name ∧ rustExtension name = some "js" ∧
          endsWithStr name "_FIXTURE.js" = false) ∧ e.path = p :=
  c6_walker_exact esSample (by decide)

/-- Claim C7: a traversal error anywhere in the walk makes `Harness::new`
fail with the `WalkDir` error variant holding the first such error: the
whole construction aborts, no partial path list is returned. -/
theorem c7_walk_error_aborts (pre : List (Except WalkMsg DirEntry))
    (e : WalkMsg) (rest : List (Except WalkMsg DirEntry))
    (hpre : ∀ x, x ∈ pre → ∃ d, x = Except.ok d) :
    harnessNew (pre ++ Except.error e :: rest) = .error (.walkDir e) := by
  induction pre with
  | nil => rfl
  | cons x pre ih =>
    obtain ⟨d, rfl⟩ := hpre x (by simp)
    have ih2 := ih fun y hy => hpre y (by simp [hy])
    cases hk : keep d with
    | none => simp only [List.cons_append, harnessNew, hk, List.append_eq, ih2]
    | some p =>
      simp only [List.cons_append, harnessNew, hk, List.append_eq, ih2]
      rfl

/-- Witness for C7 at a concrete traversal: one kept entry, then an error,
then a further entry that is never reached. -/
theorem c7_walk_error_aborts_witness :
    harnessNew [Except.ok ⟨⟨["t", "a.js"]⟩, false⟩, Except.error "denied",
      Except.ok ⟨⟨["t", "b.js"]⟩, false⟩] = .error (.walkDir "denied") :=
  c7_walk_error_aborts [Except.ok ⟨⟨["t", "a.js"]⟩, false⟩] "denied"
    [Except.ok ⟨⟨["t", "b.js"]⟩, false⟩]
    (by intro x hx
        simp only [List.mem_singleton] at hx
        exact ⟨_, hx⟩)

/-- Claim C8: a pull at an in-range cursor position always yields a result
(exactly the per-file extraction outcome, whether or not it is an error)
and advances the cursor by one, and the sequence yields `None` exactly when
every materialized path has been consumed. -/
theorem c8_error_not_terminating (py : ParseFn) (lm : LicenseMatcher)
    (fs : FileSystem) (st : Harness) (p : RsPath)
    (hp : st.test_paths.get? st.idx = some p) :
    (next py lm fs st).1 = some (create_test_from_file py lm fs p) ∧
    (next py lm fs st).2 = ⟨st.test_paths, st.idx + 1⟩ ∧
    ∀ st2 : Harness, ((next py lm fs st2).1 = none ↔
      st2.test_paths.length ≤ st2.idx) := by
  have hlt : st.idx < st.test_paths.length := by
    by_contra hge
    rw [List.get?_eq_none.mpr (by omega)] at hp
    exact Option.noConfusion hp
  have hnext : ∀ st2 : Harness, ((next py lm fs st2).1 = none ↔
      st2.test_paths.length ≤ st2.idx) := by
    intro st2
    unfold next
    by_cases hle : st2.test_paths.length ≤ st2.idx
    · simp [hle]
    · rw [if_neg hle]
      have hlt2 : st2.idx < st2.test_paths.length := by omega
      obtain ⟨q, hq⟩ : ∃ q, st2.test_paths.get? st2.idx = some q := by
        cases hg : st2.test_paths.get? st2.idx with
        | none =>
          rw [List.get?_eq_none] at hg
          omega
        | some q => exact ⟨q, rfl⟩
      rw [hq]
      simp [hle]
  refine ⟨?_, ?_, hnext⟩ <;>
    · unfold next
      rw [if_neg (by omega), hp]

/-- Witness for C8: two paths on a filesystem that always fails to read;
position 0 yields an error result yet the cursor advances, position 1 still
yields a result, and after both are consumed the sequence yields `None`. -/
theorem c8_error_not_terminating_witness :
    (next (fun _ => .error "bad") (fun _ => none) (fun _ => .error "io")
        ⟨[⟨["a.js"]⟩, ⟨["b.js"]⟩], 0⟩).1 =
      some (.err (.ioErr "io")) ∧
    (next (fun _ => .error "bad") (fun _ => none) (fun _ => .error "io")
        ⟨[⟨["a.js"]⟩, ⟨["b.js"]⟩], 0⟩).2 = ⟨[⟨["a.js"]⟩, ⟨["b.js"]⟩], 1⟩ ∧
    (next (fun _ => .error "bad") (fun _ => none) (fun _ => .error "io")
        ⟨[⟨["a.js"]⟩, ⟨["b.js"]⟩], 1⟩).1 =
      some (.err (.ioErr "io")) ∧
    (next (fun _ => .error "bad") (fun _ => none) (fun _ => .error "io")
        ⟨[⟨["a.js"]⟩, ⟨["b.js"]⟩], 2⟩).1 = none := by
  have h0 := c8_error_not_terminating (fun _ => .error "bad") (fun _ => none)
    (fun _ => .error "io") ⟨[⟨["a.js"]⟩, ⟨["b.js"]⟩], 0⟩ ⟨["a.js"]⟩ rfl
  have h1 := c8_error_not_terminating (fun _ => .error "bad") (fun _ => none)
    (fun _ => .error "io") ⟨[⟨["a.js"]⟩, ⟨["b.js"]⟩], 1⟩ ⟨["b.js"]⟩ rfl
  exact ⟨h0.1, h0.2.1, h1.1, (h0.2.2 ⟨[⟨["a.js"]⟩, ⟨["b.js"]⟩], 2⟩).mpr (by decide)⟩

theorem create_test_no_regex (py : ParseFn) (lm : LicenseMatcher)
    (contents : List Char) (path : RsPath) (msg : RegexMsg) :
    create_test py lm contents path ≠ .err (.regex msg) := by
  cases hf : find_yaml contents path with
  | error e =>
    have he := find_yaml_error_cases contents path e hf
    subst he
    simp [create_test, hf]
  | ok se =>
    obtain ⟨ys, ye⟩ := se
    simp only [create_test, hf, find_license]
    split
    · split <;> simp
    · simp

theorem harnessNew_error_shape (l : List (Except WalkMsg DirEntry)) (e : Error)
    (h : harnessNew l = .error e) : ∃ w, e = Error.walkDir w := by
  induction l generalizing e with
  | nil => exact Except.noConfusion h
  | cons x rest ih =>
    cases x with
    | error w =>
      simp only [harnessNew] at h
      exact ⟨w, ((Except.error.injEq _ _).mp h).symm⟩
    | ok d =>
      simp only [harnessNew] at h
      cases hk : keep d with
      | none =>
        rw [hk] at h
        exact ih e h
      | some p =>
        rw [hk] at h
        cases hr : harnessNew rest with
        | error e2 =>
          rw [hr] at h
          have he : e2 = e := by simpa [Except.map] using h
          subst he
          exact ih e2 hr
        | ok ps =>
          rw [hr] at h
          simp [Except.map] at h

theorem next_no_regex (py : ParseFn) (lm : LicenseMatcher) (fs : FileSystem)
    (st : Harness) (msg : RegexMsg) :
    (next py lm fs st).1 ≠ some (.err (.regex msg)) := by
  unfold next
  split
  · simp
  · cases hg : st.test_paths.get? st.idx with
    | none => simp [hg]
    | some p =>
      simp only [hg]
      intro h
      have h2 : create_test_from_file py lm fs p = .err (.regex msg) := by
        simpa using h
      unfold create_test_from_file at h2
      cases hf : fs p with
      | error e =>
        rw [hf] at h2
        simp at h2
      | ok contents =>
        rw [hf] at h2
        exact create_test_no_regex py lm contents p msg h2

/-- Claim C2: the pattern-compile error variant (`Error::Regex`) is never
produced: not by per-entry extraction (`create_test`) on any input text,
not by `Harness::new` on any traversal, and not by an iterator pull. The
fixed license pattern in the source is a valid regex, so its compilation
inside `find_license` always succeeds and the `Error::Regex` propagation
path is dead code. -/
theorem c2_regex_error_unreachable (py : ParseFn) (lm : LicenseMatcher)
    (contents : List Char) (path : RsPath)
    (walkRes : List (Except WalkMsg DirEntry)) (fs : FileSystem)
    (st : Harness) (msg : RegexMsg) :
    create_test py lm contents path ≠ .err (.regex msg) ∧
    harnessNew walkRes ≠ .error (.regex msg) ∧
    (next py lm fs st).1 ≠ some (.err (.regex msg)) :=
  ⟨create_test_no_regex py lm contents path msg,
   fun h => by
     obtain ⟨w, hw⟩ := harnessNew_error_shape walkRes _ h
     exact Error.noConfusion hw,
   next_no_regex py lm fs st msg⟩

/-- Claim C1 (counterexample): `Phase` decoding is not case-insensitive:
the exact camelCase spelling `parse` decodes to `Phase::Parse`, while the
spellings `Parse` and `PARSE` (and the other variants' capitalized
spellings) are rejected with an unknown-variant error. -/
theorem c1_phase_cex :
    decodePhase (Yaml.str "parse") = .ok Phase.Parse ∧
    decodePhase (Yaml.str "Parse") = .error "unknown variant" ∧
    decodePhase (Yaml.str "PARSE") = .error "unknown variant" ∧
    decodePhase (Yaml.str "early") = .ok Phase.Early ∧
    decodePhase (Yaml.str "Early") = .error "unknown variant" ∧
    decodePhase (Yaml.str "Resolution") = .error "unknown variant" ∧
    decodePhase (Yaml.str "Runtime") = .error "unknown variant" :=
  ⟨rfl, rfl, rfl, rfl, rfl, rfl, rfl⟩

/-- Claim C1 (amended): `Phase` decoding is case-sensitive: a string
decodes to a `Phase` variant exactly when it is that variant's camelCase
wire spelling (`parse`, `early`, `resolution`, `runtime`). -/
theorem c1_phase_case_sensitive (s : String) :
    (decodePhase (Yaml.str s) = .ok Phase.Parse ↔ s = "parse") ∧
    (decodePhase (Yaml.str s) = .ok Phase.Early ↔ s = "early") ∧
    (decodePhase (Yaml.str s) = .ok Phase.Resolution ↔ s = "resolution") ∧
    (decodePhase (Yaml.str s) = .ok Phase.Runtime ↔ s = "runtime") := by
  simp only [decodePhase, phaseOfStr]
  split_ifs with h1 h2 h3 h4 <;> subst_vars <;>
    refine ⟨?_, ?_, ?_, ?_⟩ <;> constructor <;> intro h <;> simp_all

theorem description_fields (kvs : List (String × Yaml)) (d : Description)
    (h : descriptionFromYaml (Yaml.map kvs) = .ok d) :
    optStrField kvs "id" = .ok d.id ∧ optStrField kvs "esid" = .ok d.esid ∧
    optStrField kvs "es5id" = .ok d.es5id ∧
    optStrField kvs "es6id" = .ok d.es6id ∧
    optStrField kvs "info" = .ok d.info ∧
    optStrField kvs "description" = .ok d.description ∧
    negField kvs = .ok d.negative ∧
    seqStrField kvs "includes" = .ok d.includes ∧
    flagsField kvs = .ok d.flags ∧
    seqStrField kvs "locale" = .ok d.locale ∧
    seqStrField kvs "features" = .ok d.features := by
  simp only [descriptionFromYaml] at h
  obtain ⟨v1, h1, h⟩ := except_bind_ok_inv _ _ _ h
  obtain ⟨v2, h2, h⟩ := except_bind_ok_inv _ _ _ h
  obtain ⟨v3, h3, h⟩ := except_bind_ok_inv _ _ _ h
  obtain ⟨v4, h4, h⟩ := except_bind_ok_inv _ _ _ h
  obtain ⟨v5, h5, h⟩ := except_bind_ok_inv _ _ _ h
  obtain ⟨v6, h6, h⟩ := except_bind_ok_inv _ _ _ h
  obtain ⟨v7, h7, h⟩ := except_bind_ok_inv _ _ _ h
  obtain ⟨v8, h8, h⟩ := except_bind_ok_inv _ _ _ h
  obtain ⟨v9, h9, h⟩ := except_bind_ok_inv _ _ _ h
  obtain ⟨v10, h10, h⟩ := except_bind_ok_inv _ _ _ h
  obtain ⟨v11, h11, h⟩ := except_bind_ok_inv _ _ _ h
  have hd : (⟨v1, v2, v3, v4, v5, v6, v7, v8, v9, v10, v11⟩ : Description) = d :=
    (Except.ok.injEq _ _).mp h
  subst hd
  exact ⟨h1, h2, h3, h4, h5, h6, h7, h8, h9, h10, h11⟩

/-- Claim C9: absence of any optional key never by itself fails decoding:
whenever a mapping decodes successfully, each absent scalar key left its
field `None` and each absent collection key left its collection empty; and
the mapping with every key absent decodes successfully to the all-default
record (all four identifier fields absent simultaneously included). -/
theorem c9_absent_defaults (kvs : List (String × Yaml)) (d : Description)
    (h : descriptionFromYaml (Yaml.map kvs) = .ok d) :
    (kvs.lookup "id" = none → d.id = none) ∧
    (kvs.lookup "esid" = none → d.esid = none) ∧
    (kvs.lookup "es5id" = none → d.es5id = none) ∧
    (kvs.lookup "es6id" = none → d.es6id = none) ∧
    (kvs.lookup "info" = none → d.info = none) ∧
    (kvs.lookup "description" = none → d.description = none) ∧
    (kvs.lookup "negative" = none → d.negative = none) ∧
    (kvs.lookup "includes" = none → d.includes = []) ∧
    (kvs.lookup "flags" = none → d.flags = []) ∧
    (kvs.lookup "locale" = none → d.locale = []) ∧
    (kvs.lookup "features" = none → d.features = []) ∧
    descriptionFromYaml (Yaml.map []) =
      .ok ⟨none, none, none, none, none, none, none, [], [], [], []⟩ := by
  obtain ⟨h1, h2, h3, h4, h5, h6, h7, h8, h9, h10, h11⟩ :=
    description_fields kvs d h
  refine ⟨?_, ?_, ?_, ?_, ?_, ?_, ?_, ?_, ?_, ?_, ?_, rfl⟩
  · intro hl
    have hv : optStrField kvs "id" = .ok none := by
      unfold optStrField
      rw [hl]
    simpa using h1.symm.trans hv
  · intro hl
    have hv : optStrField kvs "esid" = .ok none := by
      unfold optStrField
      rw [hl]
    simpa using h2.symm.trans hv
  · intro hl
    have hv : optStrField kvs "es5id" = .ok none := by
      unfold optStrField
      rw [hl]
    simpa using h3.symm.trans hv
  · intro hl
    have hv : optStrField kvs "es6id" = .ok none := by
      unfold optStrField
      rw [hl]
    simpa using h4.symm.trans hv
  · intro hl
    have hv : optStrField kvs "info" = .ok none := by
      unfold optStrField
      rw [hl]
    simpa using h5.symm.trans hv
  · intro hl
    have hv : optStrField kvs "description" = .ok none := by
      unfold optStrField
      rw [hl]
    simpa using h6.symm.trans hv
  · intro hl
    have hv : negField kvs = .ok none := by
      unfold negField
      rw [hl]
    simpa using h7.symm.trans hv
  · intro hl
    have hv : seqStrField kvs "includes" = .ok [] := by
      unfold seqStrField
      rw [hl]
    simpa using h8.symm.trans hv
  · intro hl
    have hv : flagsField kvs = .ok [] := by
      unfold flagsField
      rw [hl]
    simpa using h9.symm.trans hv
  · intro hl
    have hv : seqStrField kvs "locale" = .ok [] := by
      unfold seqStrField
      rw [hl]
    simpa using h10.symm.trans hv
  · intro hl
    have hv : seqStrField kvs "features" = .ok [] := by
      unfold seqStrField
      rw [hl]
    simpa using h11.symm.trans hv

/-- Witness for C9: the empty metadata mapping decodes successfully to the
all-default record. -/
theorem c9_absent_defaults_witness :
    descriptionFromYaml (Yaml.map []) =
      .ok ⟨none, none, none, none, none, none, none, [], [], [], []⟩ :=
  (c9_absent_defaults []
    ⟨none, none, none, none, none, none, none, [], [], [], []⟩
    rfl).2.2.2.2.2.2.2.2.2.2.2

/-- Claim C10: `flags: [noStrict]` decodes to a flag list holding exactly
`NoStrict`, and `negative: (phase: parse, type: Exception)` decodes to a
negative outcome with phase `Parse` and kind `Some "Exception"` — the
legacy key `type` feeds the `kind` field. -/
theorem c10_flag_and_alias :
    descriptionFromYaml (Yaml.map [("flags", Yaml.seq [Yaml.str "noStrict"])]) =
      .ok ⟨none, none, none, none, none, none, none, [], [Flag.NoStrict], [], []⟩ ∧
    descriptionFromYaml (Yaml.map [("negative",
        Yaml.map [("phase", Yaml.str "parse"), ("type", Yaml.str "Exception")])]) =
      .ok ⟨none, none, none, none, none, none,
        some ⟨Phase.Parse, some "Exception"⟩, [], [], [], []⟩ :=
  ⟨rfl, rfl⟩

end T262
